import Mathlib

/-!
# Verification of the dea-cli offline durability and replay subsystem

A shallow embedding, in Lean 4, of the core components of the dea-cli
repository: the network-failure classifiers, the durable request queue,
the queue flusher, the token store, the token-response parsing of the
API transport and the auto-refresh scheduler.  Each definition is a
direct translation of the corresponding Go function; stateful code is
modelled by explicit state passing over a file-state type, fallible
code returns Except, and library behaviour (JSON marshalling, the
clock) is made explicit where it matters.

Source files embedded here:
  internal/api/client.go      (IsNetworkError, containsStr, token parsing)
  internal/commands/claim.go  (isNetworkErr, containsIgnoreCase, toLower)
  queue package               (QueuedRequest, Queue.Add/List/Remove/Clear/Len, Flush)
  internal/auth/refresh.go    (TokenData, TokenStore, StartAutoRefresh)
-/

namespace DeaCli

/-! ## Network classifiers

Go strings are byte arrays; all keywords below are ASCII, and both Go
helpers scan bytes.  An ASCII keyword occurs as a byte substring of a
UTF-8 string exactly when it occurs as a character substring, and the
byte-wise ASCII lowering of claim.go touches only the bytes 0x41-0x5A,
which are exactly the characters `A`-`Z`; so the character-level model
below is faithful. -/

/-- The substring scan of `containsStr` in internal/api/client.go:
`sub` occurs in `s` iff some window `s[i:i+len(sub)]` equals `sub`. -/
def containsList (s sub : List Char) : Bool :=
  if sub.length > s.length then false
  else (List.range (s.length - sub.length + 1)).any fun i =>
    (s.drop i).take sub.length == sub

/-- Function `containsStr` from internal/api/client.go (case-sensitive). -/
def containsStr (s sub : String) : Bool :=
  containsList s.data sub.data

/-- The byte-wise ASCII lowering of `toLower` in internal/commands/claim.go:
bytes in `A`..`Z` get `'a' - 'A'` (= 32) added, all others are kept. -/
def toLowerChar (c : Char) : Char :=
  if 'A' ≤ c ∧ c ≤ 'Z' then Char.ofNat (c.toNat + 32) else c

/-- Function `containsIgnoreCase` from internal/commands/claim.go: lowers both
strings byte-wise, then runs the same window scan as `containsStr`. -/
def containsIgnoreCase (s sub : String) : Bool :=
  containsList (s.data.map toLowerChar) (sub.data.map toLowerChar)

/-- Function `IsNetworkError` from internal/api/client.go, the classifier the
queue flusher consults.  Case-sensitive; note the keyword
`connection refused` (not the bare `connection`).  The Go function
takes an error value and first returns false on nil; the classifiers
only ever read `err.Error()`, so errors are modelled by their message
strings. -/
def IsNetworkError (msg : String) : Bool :=
  ["network error", "connection refused", "no such host", "timeout", "dial"].any
    fun keyword => containsStr msg keyword

/-- Function `isNetworkErr` from internal/commands/claim.go, the classifier the
command layer consults before queueing.  Case-insensitive, with the
bare keyword `connection`. -/
def isNetworkErr (msg : String) : Bool :=
  ["network error", "connection", "no such host", "timeout", "dial"].any
    fun keyword => containsIgnoreCase msg keyword

/-- Modelled from the spec (§4.3): "Classification is substring-based
over the error's textual message, matching any of: 'network error',
'connection' (refused, reset, etc.), 'no such host', 'timeout',
'dial'. Case-insensitive."  Used to compare the spec's description of
the classifier against the two implementations. -/
def specNetworkClassifier (msg : String) : Bool :=
  ["network error", "connection", "no such host", "timeout", "dial"].any
    fun keyword => containsIgnoreCase msg keyword

/-! ## Decimal rendering

`Queue.Add` builds the entry identifier with
`fmt.Sprintf("%d", time.Now().UnixNano())`.  The helpers below model
that decimal rendering of an integer: least-significant digits first
(fuel-bounded so the kernel can evaluate it), then reversed and mapped
to digit characters.  A parsing left inverse is defined so that
injectivity of the rendering can be proved. -/

/-- Base-10 digits of `n`, least significant first; `fuel ≥ n` suffices. -/
def natDigitsRevAux : Nat → Nat → List Nat
  | 0, _ => []
  | _ + 1, 0 => []
  | fuel + 1, n + 1 => ((n + 1) % 10) :: natDigitsRevAux fuel ((n + 1) / 10)

/-- Base-10 digits of `n`, least significant first (empty for 0). -/
def natDigitsRev (n : Nat) : List Nat := natDigitsRevAux n n

/-- Value of a least-significant-first digit list. -/
def digitsVal : List Nat → Nat
  | [] => 0
  | d :: ds => d + 10 * digitsVal ds

/-- Decimal rendering of a natural number, as `%d` prints it. -/
def natDecRepr (n : Nat) : String :=
  if n = 0 then "0" else ⟨(natDigitsRev n).reverse.map Nat.digitChar⟩

/-- Inverse of `Nat.digitChar` on the digits 0-9. -/
def charDigit (c : Char) : Nat := c.toNat - '0'.toNat

/-- Parse a decimal string of digits back to its value. -/
def parseNatDec (s : String) : Nat :=
  digitsVal (s.data.reverse.map charDigit)

/-- Decimal rendering of an integer, as `%d` prints an int64. -/
def intDecRepr (n : Int) : String :=
  if n < 0 then ⟨'-' :: (natDecRepr n.natAbs).data⟩ else natDecRepr n.toNat

/-- Parse a decimal integer string back to its value. -/
def parseIntDec (s : String) : Int :=
  if s.data.head? = some '-' then
    - Int.ofNat (digitsVal (s.data.tail.reverse.map charDigit))
  else Int.ofNat (parseNatDec s)

/-! ## Durable queue

From the queue package.  The on-disk file `~/.dea/queue.json` is
modelled by `QueueFile`: absent, unreadable-or-corrupt (a read or
unmarshal failure), or a parsed list of entries.  `Queue.load` maps
absence to an empty list and propagates every other failure; writes
are modelled as always succeeding (write failures are not the subject
of any claim about the queue file itself).  The two `time.Now()` calls
inside `Add` (one for the identifier, one for `QueuedAt`) are modelled
by a single clock reading `now`, passed in explicitly. -/

/-- Struct `QueuedRequest` from the queue package.  Field `body` is the raw
serialized body (`json.RawMessage`), absent when nil. -/
structure QueuedRequest where
  id : String
  method : String
  path : String
  body : Option String
  queuedAt : Int
deriving DecidableEq

/-- State of the queue file on disk. -/
inductive QueueFile where
  | missing
  | corrupt
  | good (items : List QueuedRequest)
deriving DecidableEq

/-- Method `Queue.load`: a missing file is an empty queue; a read or
unmarshal failure propagates. -/
def loadQ : QueueFile → Except String (List QueuedRequest)
  | .missing => .ok []
  | .corrupt => .error "unexpected end of JSON input"
  | .good items => .ok items

/-- The entry `Queue.Add` appends for clock reading `now`: the
identifier is the decimal rendering of `time.Now().UnixNano()`. -/
def mkQueuedRequest (now : Int) (method path : String) (body : Option String) :
    QueuedRequest :=
  { id := intDecRepr now, method := method, path := path, body := body
    queuedAt := now }

/-- Method `Queue.Add`: loads the existing entries, FALLING BACK TO AN EMPTY
LIST if the load fails (the Go code replaces a load error by
`[]QueuedRequest{}`), appends the new entry and saves. -/
def addQ (now : Int) (method path : String) (body : Option String)
    (f : QueueFile) : Except String QueueFile :=
  let items := match loadQ f with
    | .error _ => []
    | .ok l => l
  .ok (.good (items ++ [mkQueuedRequest now method path body]))

/-- Method `Queue.List`: returns the loaded entries, propagating load errors. -/
def listQ (f : QueueFile) : Except String (List QueuedRequest) := loadQ f

/-- Method `Queue.Remove`: loads (propagating errors), filters out the
matching identifier, saves the remainder. -/
def removeQ (targetId : String) (f : QueueFile) : Except String QueueFile :=
  match loadQ f with
  | .error e => .error e
  | .ok items => .ok (.good (items.filter fun e => e.id != targetId))

/-- Method `Queue.Clear`: saves an empty list. -/
def clearQ (_ : QueueFile) : Except String QueueFile := .ok (.good [])

/-- Method `Queue.Len`: count of entries, load errors reported as zero. -/
def lenQ (f : QueueFile) : Nat :=
  match loadQ f with
  | .error _ => 0
  | .ok items => items.length

/-- One `Add` invocation: the clock reading observed by the call plus
the arguments of `Queue.Add`. -/
structure AddCall where
  now : Int
  method : String
  path : String
  body : Option String

/-- The entry an `AddCall` produces. -/
def mkCall (c : AddCall) : QueuedRequest :=
  mkQueuedRequest c.now c.method c.path c.body

/-- A sequence of `Queue.Add` calls threaded through the file state. -/
def addAll : List AddCall → QueueFile → QueueFile
  | [], f => f
  | c :: cs, f =>
    match addQ c.now c.method c.path c.body f with
    | .ok f' => addAll cs f'
    | .error _ => addAll cs f

/-! ## Queue flusher

`Flush` from the queue package.  The API client is abstracted by an
oracle giving, per replayed request, either success (`none`; the
response bytes are discarded by `Flush`) or failure with the error's
message text (`some msg`).  `Queue.Remove` can fail on a filesystem
write error; which removals fail is abstracted by the oracle `rok`
(indexed by the identifier `Flush` passes to `Remove`); a failed
removal leaves the file unchanged.  All three call sites of `Remove`
inside `Flush` discard its error. -/

/-- Success/failure oracle for `client.Post` and `client.Get`. -/
structure ClientOracle where
  post : String → Option String → Option String
  get : String → Option String

/-- The `switch item.Method` dispatch of `Flush`: `none` for an
unrecognized method, otherwise the outcome of the replay. -/
def dispatchE (c : ClientOracle) (e : QueuedRequest) : Option (Option String) :=
  if e.method == "POST" then some (c.post e.path e.body)
  else if e.method == "GET" then some (c.get e.path)
  else none

/-- Call `q.Remove(id)` as made from `Flush`: filters the live file by
identifier when the removal succeeds, leaves it unchanged when the
filesystem write fails. -/
def tryRemove (rok : String → Bool) (targetId : String)
    (st : List QueuedRequest) : List QueuedRequest :=
  if rok targetId then st.filter fun e => e.id != targetId else st

/-- The entry loop of `Flush`: iterates over the snapshot returned by
`q.List()` while removals mutate the live file state `st`.  An
unrecognized method is removed and skipped; an error is classified by
`IsNetworkError` — transient stops the loop, non-transient removes the
entry and continues; success removes the entry and increments the
flushed counter. -/
def flushLoop (c : ClientOracle) (rok : String → Bool) :
    List QueuedRequest → List QueuedRequest → Nat → Nat × List QueuedRequest
  | [], st, flushed => (flushed, st)
  | item :: rest, st, flushed =>
    match dispatchE c item with
    | none => flushLoop c rok rest (tryRemove rok item.id st) flushed
    | some (some msg) =>
      if IsNetworkError msg then (flushed, st)
      else flushLoop c rok rest (tryRemove rok item.id st) flushed
    | some none => flushLoop c rok rest (tryRemove rok item.id st) (flushed + 1)

/-- Function `Flush(q, client)`: loads the queue (a load failure is the only
hard error), returns the flushed count; the second component is the
final file contents. -/
def FlushQ (c : ClientOracle) (rok : String → Bool) (f : QueueFile) :
    Except String (Nat × List QueuedRequest) :=
  match loadQ f with
  | .error e => .error ("failed to load queue: " ++ e)
  | .ok items =>
    if items.isEmpty then .ok (0, items)
    else .ok (flushLoop c rok items items 0)

/-- An entry stops the flush loop: its replay is dispatched and fails
with a message `IsNetworkError` classifies as transient. -/
def breaks (c : ClientOracle) (e : QueuedRequest) : Bool :=
  match dispatchE c e with
  | some (some msg) => IsNetworkError msg
  | _ => false

/-- An entry replays successfully (recognized method, no error). -/
def isSuccess (c : ClientOracle) (e : QueuedRequest) : Bool :=
  match dispatchE c e with
  | some none => true
  | _ => false

/-- Number of entries of `l` whose replay succeeds. -/
def succCount (c : ClientOracle) (l : List QueuedRequest) : Nat :=
  (l.filter fun e => isSuccess c e).length

/-- The processed entries whose removal fails and which therefore
stay in the file. -/
def keptOf (rok : String → Bool) (l : List QueuedRequest) : List QueuedRequest :=
  l.filter fun e => !(rok e.id)

/-! ## Token store

From internal/auth/refresh.go.  The file `~/.dea/tokens.json` is
modelled by `TokenFile`.  `Load` returns nil on ANY read or unmarshal
failure; `Save` marshals the struct and writes it (writes modelled as
succeeding); `Clear` is exactly `os.Remove`, which fails on a missing
file.  JSON documents are modelled by the `Json` type below;
`encoding/json` field semantics (unknown fields ignored, missing
fields left at their zero value, `null` a no-op, type mismatches
rejected, the last duplicate key winning) are modelled by the
field-extraction helpers.  A `time.Time` leaf is carried as its
instant (`Json.num`): Go's RFC3339Nano string codec round-trips the
instant exactly, and no claim depends on the textual form. -/

/-- Struct `TokenData` from internal/auth/refresh.go; `expiresAt` is the
expiry instant in nanoseconds. -/
structure TokenData where
  workspaceToken : String
  tokenType : String
  expiresAt : Int
  workspaceID : String
  agentID : String
  endpoint : String
deriving DecidableEq

/-- A JSON document. -/
inductive Json where
  | null
  | bool (b : Bool)
  | num (n : Int)
  | str (s : String)
  | arr (elements : List Json)
  | obj (fields : List (String × Json))

/-- Key lookup in a JSON object, last occurrence winning as in
`encoding/json`. -/
def lookupJ (fields : List (String × Json)) (key : String) : Option Json :=
  match fields.reverse.find? (fun kv => kv.1 == key) with
  | some kv => some kv.2
  | none => none

/-- Unmarshal a Go `string` field: missing or `null` leaves the zero
value, a non-string node is a type error. -/
def getStrField (fields : List (String × Json)) (key : String) :
    Except String String :=
  match lookupJ fields key with
  | none => .ok ""
  | some .null => .ok ""
  | some (.str s) => .ok s
  | some _ => .error ("cannot unmarshal into string field " ++ key)

/-- Unmarshal a Go `time.Time` field (instant-valued leaf): missing or
`null` leaves the zero instant, anything but a time leaf is an error. -/
def getTimeField (fields : List (String × Json)) (key : String) :
    Except String Int :=
  match lookupJ fields key with
  | none => .ok 0
  | some .null => .ok 0
  | some (.num n) => .ok n
  | some _ => .error ("cannot unmarshal into time.Time field " ++ key)

/-- Marshalling (`json.MarshalIndent`) of a `TokenData`, as written by
`TokenStore.Save`. -/
def encodeTokenData (t : TokenData) : Json :=
  .obj [("workspace_token", .str t.workspaceToken),
        ("token_type", .str t.tokenType),
        ("expires_at", .num t.expiresAt),
        ("workspace_id", .str t.workspaceID),
        ("agent_id", .str t.agentID),
        ("endpoint", .str t.endpoint)]

/-- Unmarshalling (`json.Unmarshal`) into a `TokenData`: `null` is a no-op (zero
struct), a non-object document is a type error. -/
def decodeTokenData (j : Json) : Except String TokenData :=
  match j with
  | .null => .ok ⟨"", "", 0, "", "", ""⟩
  | .obj fields => do
    let workspaceToken ← getStrField fields "workspace_token"
    let tokenType ← getStrField fields "token_type"
    let expiresAt ← getTimeField fields "expires_at"
    let workspaceID ← getStrField fields "workspace_id"
    let agentID ← getStrField fields "agent_id"
    let endpoint ← getStrField fields "endpoint"
    pure ⟨workspaceToken, tokenType, expiresAt, workspaceID, agentID, endpoint⟩
  | _ => .error "cannot unmarshal into struct TokenData"

/-- State of the token file on disk. -/
inductive TokenFile where
  | missing
  | unreadable
  | stored (j : Json)

/-- Method `TokenStore.Load`: nil on a missing or unreadable file and on any
unmarshal failure. -/
def loadT : TokenFile → Option TokenData
  | .missing => none
  | .unreadable => none
  | .stored j =>
    match decodeTokenData j with
    | .ok t => some t
    | .error _ => none

/-- Method `TokenStore.Save`: marshals the credential and overwrites the file. -/
def saveT (t : TokenData) (_ : TokenFile) : TokenFile :=
  .stored (encodeTokenData t)

/-- Method `TokenStore.GetToken`: the raw bearer string, empty when absent. -/
def getTokenT (f : TokenFile) : String :=
  match loadT f with
  | none => ""
  | some t => t.workspaceToken

/-- Method `TokenStore.Clear` is exactly `os.Remove(s.path)`: deleting a
missing file surfaces the filesystem error; otherwise the file is
gone. -/
def clearT : TokenFile → Except String TokenFile
  | .missing => .error "remove tokens.json: no such file or directory"
  | .unreadable => .ok .missing
  | .stored _ => .ok .missing

/-- The file state after a `Clear`, whatever `Clear` returned (a
failed `os.Remove` of a missing file leaves the file missing). -/
def afterClearT (f : TokenFile) : TokenFile :=
  match clearT f with
  | .ok f' => f'
  | .error _ => f

/-! ## Token-response parsing

From `RefreshToken` and `IssueToken` in internal/api/client.go: both
unmarshal the response body first into `struct { Data TokenResponse }`
and, only if that unmarshal returns an error, fall back to a flat
`TokenResponse` unmarshal, surfacing the first error if both fail.
The input is the parsed response document; a syntactically invalid
body fails both unmarshals and surfaces the error. -/

/-- Struct `TokenResponse` from internal/api/client.go. -/
structure TokenResponse where
  workspaceToken : String
  tokenType : String
  expiresAt : Int
  workspaceID : String
  agentID : String
deriving DecidableEq

/-- The zero value of `TokenResponse`. -/
def zeroTokenResponse : TokenResponse := ⟨"", "", 0, "", ""⟩

/-- Unmarshalling (`json.Unmarshal`) into a flat `TokenResponse`. -/
def decodeTokenResponse (j : Json) : Except String TokenResponse :=
  match j with
  | .null => .ok zeroTokenResponse
  | .obj fields => do
    let workspaceToken ← getStrField fields "workspace_token"
    let tokenType ← getStrField fields "token_type"
    let expiresAt ← getTimeField fields "expires_at"
    let workspaceID ← getStrField fields "workspace_id"
    let agentID ← getStrField fields "agent_id"
    pure ⟨workspaceToken, tokenType, expiresAt, workspaceID, agentID⟩
  | _ => .error "cannot unmarshal into struct TokenResponse"

/-- Unmarshalling (`json.Unmarshal`) into the wrapper struct holding a
`data` field: on any JSON
object this succeeds — unknown keys are ignored and a missing `data`
key leaves the zero value. -/
def decodeWrapper (j : Json) : Except String TokenResponse :=
  match j with
  | .null => .ok zeroTokenResponse
  | .obj fields =>
    match lookupJ fields "data" with
    | none => .ok zeroTokenResponse
    | some v => decodeTokenResponse v
  | _ => .error "cannot unmarshal into struct wrapper"

/-- The response-parsing logic shared by `RefreshToken` and
`IssueToken`: wrapped shape first, flat shape only if the wrapped
unmarshal errored, first error surfaced when both fail. -/
def parseTokenBody (j : Json) : Except String TokenResponse :=
  match decodeWrapper j with
  | .ok w => .ok w
  | .error e =>
    match decodeTokenResponse j with
    | .ok t => .ok t
    | .error _ => .error e

/-! ## Auto-refresh scheduler

One iteration of the loop inside `StartAutoRefresh` in
internal/auth/refresh.go, observed as the total time slept before its
action and the action itself.  Sleeps are exact time advance; the
refresh function is invoked at instant `now + slept`. -/

/-- 4 hours in nanoseconds (`4 * time.Hour`). -/
def fourHoursNs : Int := 4 * 60 * 60 * 1000000000

/-- 5 minutes in nanoseconds (`5 * time.Minute`). -/
def fiveMinutesNs : Int := 5 * 60 * 1000000000

/-- What one scheduler iteration does after sleeping. -/
inductive RefreshAction where
  | polled
  | invoked (currentToken : String)
deriving DecidableEq

/-- Observation of one scheduler iteration. -/
structure RefreshObs where
  slept : Int
  action : RefreshAction
deriving DecidableEq

/-- One iteration of the `StartAutoRefresh` loop: with no stored
credential, sleep 5 minutes and poll again; with a credential, compute
`refreshAt = expiry - 4h`, sleep until `refreshAt` only if `now` is
before it, then invoke the refresh function on the stored raw token. -/
def autoRefreshStep (stored : Option TokenData) (now : Int) : RefreshObs :=
  match stored with
  | none => ⟨fiveMinutesNs, .polled⟩
  | some t =>
    let refreshAt := t.expiresAt - fourHoursNs
    if now < refreshAt then ⟨refreshAt - now, .invoked t.workspaceToken⟩
    else ⟨0, .invoked t.workspaceToken⟩

/-! ### Decimal-rendering lemmas -/

theorem digitsVal_natDigitsRevAux :
    ∀ fuel n, n ≤ fuel → digitsVal (natDigitsRevAux fuel n) = n := by
  intro fuel
  induction fuel with
  | zero =>
    intro n h
    have : n = 0 := Nat.le_zero.mp h
    subst this
    rfl
  | succ f ih =>
    intro n h
    match n with
    | 0 => rfl
    | m + 1 =>
      simp only [natDigitsRevAux, digitsVal]
      rw [ih ((m + 1) / 10) (by omega)]
      omega

theorem natDigitsRevAux_lt10 :
    ∀ fuel n d, d ∈ natDigitsRevAux fuel n → d < 10 := by
  intro fuel
  induction fuel with
  | zero =>
    intro n d h
    simp [natDigitsRevAux] at h
  | succ f ih =>
    intro n d h
    match n with
    | 0 => simp [natDigitsRevAux] at h
    | m + 1 =>
      simp only [natDigitsRevAux, List.mem_cons] at h
      rcases h with rfl | h
      · omega
      · exact ih _ _ h

theorem charDigit_digitChar (d : Nat) (h : d < 10) :
    charDigit (Nat.digitChar d) = d := by
  interval_cases d <;> decide

theorem map_charDigit (ds : List Nat) (h : ∀ d ∈ ds, d < 10) :
    (ds.map Nat.digitChar).map charDigit = ds := by
  induction ds with
  | nil => rfl
  | cons d ds ih =>
    rw [List.map_cons, List.map_cons,
      charDigit_digitChar d (h d (List.mem_cons_self d ds)),
      ih (fun x hx => h x (List.mem_cons_of_mem d hx))]

theorem parseNatDec_natDecRepr (n : Nat) : parseNatDec (natDecRepr n) = n := by
  by_cases h0 : n = 0
  · subst h0; decide
  · unfold natDecRepr
    rw [if_neg h0]
    show digitsVal ((((natDigitsRev n).reverse.map Nat.digitChar).reverse).map
      charDigit) = n
    have hb : ∀ d ∈ natDigitsRev n, d < 10 :=
      fun d hd => natDigitsRevAux_lt10 n n d hd
    rw [← List.map_reverse, List.reverse_reverse, map_charDigit _ hb]
    exact digitsVal_natDigitsRevAux n n le_rfl

theorem digitChar_ne_dash (d : Nat) (h : d < 10) : Nat.digitChar d ≠ '-' := by
  interval_cases d <;> decide

theorem natDecRepr_head (m : Nat) : (natDecRepr m).data.head? ≠ some '-' := by
  by_cases h0 : m = 0
  · subst h0; decide
  · unfold natDecRepr
    rw [if_neg h0]
    show (((natDigitsRev m).reverse.map Nat.digitChar)).head? ≠ some '-'
    cases hl : ((natDigitsRev m).reverse.map Nat.digitChar) with
    | nil => simp
    | cons c tail =>
      intro hc
      have hcmem : c ∈ (natDigitsRev m).reverse.map Nat.digitChar := by
        rw [hl]; exact List.mem_cons_self c tail
      obtain ⟨d, hdmem, rfl⟩ := List.mem_map.mp hcmem
      have hd10 : d < 10 := natDigitsRevAux_lt10 m m d (List.mem_reverse.mp hdmem)
      exact digitChar_ne_dash d hd10 (Option.some.inj hc)

theorem parseIntDec_intDecRepr (n : Int) : parseIntDec (intDecRepr n) = n := by
  by_cases hn : n < 0
  · unfold intDecRepr
    rw [if_pos hn]
    unfold parseIntDec
    have hcond :
        ((⟨'-' :: (natDecRepr n.natAbs).data⟩ : String)).data.head? = some '-' :=
      rfl
    rw [if_pos hcond]
    show - Int.ofNat (parseNatDec (natDecRepr n.natAbs)) = n
    rw [parseNatDec_natDecRepr]
    simp only [Int.ofNat_eq_coe]
    omega
  · unfold intDecRepr
    rw [if_neg hn]
    unfold parseIntDec
    rw [if_neg (natDecRepr_head n.toNat)]
    show Int.ofNat (parseNatDec (natDecRepr n.toNat)) = n
    rw [parseNatDec_natDecRepr]
    simp only [Int.ofNat_eq_coe]
    omega

theorem intDecRepr_injective : Function.Injective intDecRepr := by
  intro a b h
  have ha := parseIntDec_intDecRepr a
  rw [h, parseIntDec_intDecRepr] at ha
  exact ha.symm

/-! ### Queue lemmas -/

theorem addAll_good (cs : List AddCall) :
    ∀ init, addAll cs (.good init) = .good (init ++ cs.map mkCall) := by
  induction cs with
  | nil => intro init; simp [addAll]
  | cons c cs ih =>
    intro init
    simp only [addAll, addQ, loadQ]
    rw [ih]
    simp [mkCall]

theorem listQ_addAll (cs : List AddCall) :
    listQ (addAll cs .missing) = .ok (cs.map mkCall) := by
  cases cs with
  | nil => rfl
  | cons c cs =>
    simp only [addAll, addQ, loadQ]
    rw [addAll_good]
    simp [listQ, loadQ, mkCall]

/-! ### Window-scan lemmas -/

theorem containsList_iff (s sub : List Char) :
    containsList s sub = true ↔
      sub.length ≤ s.length ∧
        ∃ i, i < s.length - sub.length + 1 ∧ (s.drop i).take sub.length = sub := by
  unfold containsList
  split
  · rename_i hgt
    simp only [Bool.false_eq_true, false_iff, not_and]
    intro hle
    omega
  · rename_i hle
    simp only [List.any_eq_true, List.mem_range, beq_iff_eq]
    constructor
    · rintro ⟨i, hi, he⟩
      exact ⟨Nat.le_of_not_lt hle, i, hi, he⟩
    · rintro ⟨_, i, hi, he⟩
      exact ⟨i, hi, he⟩

theorem containsList_map (f : Char → Char) (s sub : List Char)
    (h : containsList s sub = true) :
    containsList (s.map f) (sub.map f) = true := by
  rw [containsList_iff] at h ⊢
  obtain ⟨hlen, i, hi, he⟩ := h
  refine ⟨by simpa using hlen, i, by simpa using hi, ?_⟩
  rw [List.length_map, ← List.map_drop, ← List.map_take, he]

theorem containsList_take (s sub : List Char) (k : Nat)
    (h : containsList s sub = true) :
    containsList s (sub.take k) = true := by
  rw [containsList_iff] at h ⊢
  obtain ⟨hlen, i, hi, he⟩ := h
  have h2 : ((s.drop i).take sub.length).take k = sub.take k := by rw [he]
  rw [List.take_take] at h2
  refine ⟨?_, i, ?_, ?_⟩
  · rw [List.length_take]; omega
  · rw [List.length_take]; omega
  · rw [List.length_take]; exact h2

/-! ### Classifier bridge lemmas -/

theorem contains_lower (msg sub : String)
    (hlow : sub.data.map toLowerChar = sub.data)
    (h : containsStr msg sub = true) :
    containsIgnoreCase msg sub = true := by
  unfold containsStr at h
  unfold containsIgnoreCase
  have h2 := containsList_map toLowerChar msg.data sub.data h
  rw [hlow] at h2
  rw [hlow]
  exact h2

theorem IsNetworkError_imp_spec (msg : String) (h : IsNetworkError msg = true) :
    specNetworkClassifier msg = true := by
  unfold IsNetworkError at h
  simp only [List.any_eq_true, List.mem_cons, List.not_mem_nil, or_false] at h
  obtain ⟨kw, hmem, hc⟩ := h
  unfold specNetworkClassifier
  simp only [List.any_eq_true, List.mem_cons, List.not_mem_nil, or_false]
  rcases hmem with rfl | rfl | rfl | rfl | rfl
  · exact ⟨"network error", by simp, contains_lower _ _ (by decide) hc⟩
  · refine ⟨"connection", by simp, ?_⟩
    unfold containsStr at hc
    have h1 := containsList_map toLowerChar msg.data ("connection refused").data hc
    have hlow1 : ("connection refused").data.map toLowerChar =
        ("connection refused").data := by decide
    rw [hlow1] at h1
    have h2 := containsList_take _ _ 10 h1
    have htake : ("connection refused").data.take 10 = ("connection").data := by
      decide
    rw [htake] at h2
    unfold containsIgnoreCase
    have hlow2 : ("connection").data.map toLowerChar = ("connection").data := by
      decide
    rw [hlow2]
    exact h2
  · exact ⟨"no such host", by simp, contains_lower _ _ (by decide) hc⟩
  · exact ⟨"timeout", by simp, contains_lower _ _ (by decide) hc⟩
  · exact ⟨"dial", by simp, contains_lower _ _ (by decide) hc⟩

/-! ### Flush-loop lemmas -/

theorem breaks_iff (c : ClientOracle) (e : QueuedRequest) :
    breaks c e = true ↔
      ∃ m, dispatchE c e = some (some m) ∧ IsNetworkError m = true := by
  unfold breaks
  cases hd : dispatchE c e with
  | none => simp
  | some r =>
    cases r with
    | none => simp
    | some m => simp

theorem isSuccess_eq_false_of_none (c : ClientOracle) (e : QueuedRequest)
    (hd : dispatchE c e = none) : isSuccess c e = false := by
  simp [isSuccess, hd]

theorem isSuccess_eq_false_of_err (c : ClientOracle) (e : QueuedRequest)
    (m : String) (hd : dispatchE c e = some (some m)) : isSuccess c e = false := by
  simp [isSuccess, hd]

theorem isSuccess_eq_true_of_ok (c : ClientOracle) (e : QueuedRequest)
    (hd : dispatchE c e = some none) : isSuccess c e = true := by
  simp [isSuccess, hd]

theorem filter_id_ne_self (i : String) (l : List QueuedRequest)
    (h : ∀ x ∈ l, x.id ≠ i) : (l.filter fun x => x.id != i) = l := by
  rw [List.filter_eq_self]
  intro x hx
  simpa using h x hx

theorem nodup_ids_iff (l : List QueuedRequest) :
    ((l.map fun e => e.id).Nodup) ↔ l.Pairwise (fun a b => a.id ≠ b.id) :=
  List.pairwise_map

theorem filter_middle (kept tail : List QueuedRequest) (e : QueuedRequest)
    (hP : (kept ++ e :: tail).Pairwise (fun a b => a.id ≠ b.id)) :
    ((kept ++ e :: tail).filter fun x => x.id != e.id) = kept ++ tail := by
  rw [List.pairwise_append] at hP
  obtain ⟨hk, hc, hx⟩ := hP
  rw [List.pairwise_cons] at hc
  obtain ⟨he, ht⟩ := hc
  rw [List.filter_append]
  congr 1
  · exact filter_id_ne_self e.id kept
      (fun x hx' => hx x hx' e (List.mem_cons_self e tail))
  · rw [List.filter_cons]
    simp only [bne_self_eq_false, Bool.false_eq_true, if_false]
    exact filter_id_ne_self e.id tail (fun x hx' => (he x hx').symm)

theorem flushLoop_state_sublist (c : ClientOracle) (rok : String → Bool) :
    ∀ r st fl, List.Sublist (flushLoop c rok r st fl).2 st := by
  intro r
  induction r with
  | nil => intro st fl; simp [flushLoop]
  | cons e rest ih =>
    intro st fl
    have hsub : List.Sublist (tryRemove rok e.id st) st := by
      unfold tryRemove
      split
      · exact List.filter_sublist st
      · exact List.Sublist.refl st
    simp only [flushLoop]
    cases hd : dispatchE c e with
    | none => exact (ih _ _).trans hsub
    | some r' =>
      cases r' with
      | none => exact (ih _ _).trans hsub
      | some m =>
        by_cases hn : IsNetworkError m = true
        · simp [hn]
        · rw [Bool.not_eq_true] at hn
          simp only [hn, Bool.false_eq_true, if_false]
          exact (ih _ _).trans hsub

theorem flushLoop_break (c : ClientOracle) (rok : String → Bool)
    (e : QueuedRequest) (m : String) (rest st : List QueuedRequest) (fl : Nat)
    (hd : dispatchE c e = some (some m)) (hm : IsNetworkError m = true) :
    flushLoop c rok (e :: rest) st fl = (fl, st) := by
  simp [flushLoop, hd, hm]

theorem keptOf_cons_ok (rok : String → Bool) (e : QueuedRequest)
    (l : List QueuedRequest) (hr : rok e.id = true) :
    keptOf rok (e :: l) = keptOf rok l := by
  simp [keptOf, hr]

theorem keptOf_cons_fail (rok : String → Bool) (e : QueuedRequest)
    (l : List QueuedRequest) (hr : rok e.id = false) :
    keptOf rok (e :: l) = e :: keptOf rok l := by
  simp [keptOf, hr]

theorem succCount_cons_miss (c : ClientOracle) (e : QueuedRequest)
    (l : List QueuedRequest) (hs : isSuccess c e = false) :
    succCount c (e :: l) = succCount c l := by
  simp [succCount, List.filter_cons, hs]

theorem succCount_cons_hit (c : ClientOracle) (e : QueuedRequest)
    (l : List QueuedRequest) (hs : isSuccess c e = true) :
    succCount c (e :: l) = succCount c l + 1 := by
  simp [succCount, List.filter_cons, hs, Nat.add_comm]

/-- Master characterization of the flush loop over a break-free prefix
`pre`: every entry of `pre` is dispatched; successes bump the counter;
every processed entry is removed from the live state when its removal
succeeds and stays (in place) when it fails; afterwards the loop
continues on `rest`.  `kept` holds already-processed entries whose
removal failed. -/
theorem flushLoop_drain (c : ClientOracle) (rok : String → Bool) :
    ∀ pre kept rest fl,
      (∀ e ∈ pre, breaks c e = false) →
      ((kept ++ pre ++ rest).Pairwise fun a b => a.id ≠ b.id) →
      flushLoop c rok (pre ++ rest) (kept ++ pre ++ rest) fl
        = flushLoop c rok rest (kept ++ keptOf rok pre ++ rest)
            (fl + succCount c pre) := by
  intro pre
  induction pre with
  | nil =>
    intro kept rest fl _ _
    simp [keptOf, succCount]
  | cons e pre ih =>
    intro kept rest fl hnb hP
    have hnb' : ∀ x ∈ pre, breaks c x = false :=
      fun x hx => hnb x (List.mem_cons_of_mem e hx)
    have hbe : breaks c e = false := hnb e (List.mem_cons_self e pre)
    have hPn : (kept ++ e :: (pre ++ rest)).Pairwise
        (fun a b => a.id ≠ b.id) := by
      simpa [List.append_assoc] using hP
    have hstate : kept ++ (e :: pre) ++ rest = kept ++ e :: (pre ++ rest) := by
      simp [List.append_assoc]
    rw [List.cons_append, hstate]
    -- one step of the loop
    by_cases hr : rok e.id = true
    · -- removal succeeds: the live state drops exactly `e`
      have hrem : tryRemove rok e.id (kept ++ e :: (pre ++ rest))
          = kept ++ (pre ++ rest) := by
        unfold tryRemove
        rw [if_pos hr]
        exact filter_middle kept (pre ++ rest) e hPn
      have hP' : (kept ++ pre ++ rest).Pairwise (fun a b => a.id ≠ b.id) := by
        refine List.Pairwise.sublist ?_ hPn
        rw [List.append_assoc]
        exact List.Sublist.append_left (List.sublist_cons_self e (pre ++ rest)) kept
      cases hd : dispatchE c e with
      | none =>
        simp only [flushLoop, hd, hrem]
        rw [← List.append_assoc]
        rw [ih kept rest fl hnb' hP']
        rw [keptOf_cons_ok rok e pre hr,
          succCount_cons_miss c e pre (isSuccess_eq_false_of_none c e hd)]
      | some r' =>
        cases r' with
        | none =>
          simp only [flushLoop, hd, hrem]
          rw [← List.append_assoc]
          rw [ih kept rest (fl + 1) hnb' hP']
          rw [keptOf_cons_ok rok e pre hr,
            succCount_cons_hit c e pre (isSuccess_eq_true_of_ok c e hd)]
          congr 1
          omega
        | some m =>
          have hIN : IsNetworkError m = false := by
            have := hbe
            unfold breaks at this
            rw [hd] at this
            exact this
          simp only [flushLoop, hd, hIN, Bool.false_eq_true, if_false, hrem]
          rw [← List.append_assoc]
          rw [ih kept rest fl hnb' hP']
          rw [keptOf_cons_ok rok e pre hr,
            succCount_cons_miss c e pre (isSuccess_eq_false_of_err c e m hd)]
    · -- removal fails: the live state is unchanged, `e` stays in place
      rw [Bool.not_eq_true] at hr
      have hrem : tryRemove rok e.id (kept ++ e :: (pre ++ rest))
          = (kept ++ [e]) ++ pre ++ rest := by
        unfold tryRemove
        rw [hr]
        simp [List.append_assoc]
      have hP' : ((kept ++ [e]) ++ pre ++ rest).Pairwise
          (fun a b => a.id ≠ b.id) := by
        simpa [List.append_assoc] using hPn
      have hout : kept ++ keptOf rok (e :: pre) ++ rest
          = (kept ++ [e]) ++ keptOf rok pre ++ rest := by
        rw [keptOf_cons_fail rok e pre hr]
        simp [List.append_assoc]
      cases hd : dispatchE c e with
      | none =>
        simp only [flushLoop, hd, hrem]
        rw [ih (kept ++ [e]) rest fl hnb' hP']
        rw [hout, succCount_cons_miss c e pre (isSuccess_eq_false_of_none c e hd)]
      | some r' =>
        cases r' with
        | none =>
          simp only [flushLoop, hd, hrem]
          rw [ih (kept ++ [e]) rest (fl + 1) hnb' hP']
          rw [hout, succCount_cons_hit c e pre (isSuccess_eq_true_of_ok c e hd)]
          congr 1
          omega
        | some m =>
          have hIN : IsNetworkError m = false := by
            have := hbe
            unfold breaks at this
            rw [hd] at this
            exact this
          simp only [flushLoop, hd, hIN, Bool.false_eq_true, if_false, hrem]
          rw [ih (kept ++ [e]) rest fl hnb' hP']
          rw [hout, succCount_cons_miss c e pre (isSuccess_eq_false_of_err c e m hd)]

theorem keptOf_eq_nil (rok : String → Bool) (l : List QueuedRequest)
    (h : ∀ e ∈ l, rok e.id = true) : keptOf rok l = [] := by
  induction l with
  | nil => rfl
  | cons e l ih =>
    rw [keptOf_cons_ok rok e l (h e (List.mem_cons_self e l))]
    exact ih (fun x hx => h x (List.mem_cons_of_mem e hx))

/-! ## Claim theorems -/

/-- Concrete replay oracle for the flush scenarios: the claim on card
`a` is rejected by the server with a 404, every other POST fails at
the dial step. -/
def c1Client : ClientOracle where
  post := fun path _ =>
    if path == "/cards/a/claim" then some "API error 404: card not found"
    else some "network error: dial tcp 10.0.0.1:443: connect: connection refused"
  get := fun _ => none

/-- First queued entry of the C1 scenario (fails with a 404). -/
def c1EntryA : QueuedRequest := ⟨"101", "POST", "/cards/a/claim", none, 101⟩

/-- Second queued entry of the C1 scenario (fails transiently). -/
def c1EntryB : QueuedRequest := ⟨"102", "POST", "/cards/b/claim", none, 102⟩

/-- C1, counterexample.  In a two-entry queue whose first entry fails
with a non-network 404 and whose second entry is the first to fail
with a transient classification (k = 2), `Flush` does remove entry 1
and leave entry 2, but returns 0 as the flushed count, not k - 1 = 1:
non-network failures are removed without being counted. -/
theorem c1_counterexample :
    breaks c1Client c1EntryA = false ∧
    breaks c1Client c1EntryB = true ∧
    FlushQ c1Client (fun _ => true) (.good [c1EntryA, c1EntryB])
      = .ok (0, [c1EntryB]) ∧
    (0 : Nat) ≠ 2 - 1 := by
  refine ⟨by decide, by decide, by rfl, by decide⟩

/-- C1, amended.  For a queue `pre ++ ek :: post` with pairwise
distinct identifiers where no entry of `pre` stops the loop and `ek`
is the first to fail with a transient classification, and removals
succeed, `Flush` removes exactly the entries before `ek`, leaves
`ek :: post` untouched and in order, and returns the number of entries
of `pre` whose replay succeeded (equal to k - 1 exactly when every
earlier entry replayed successfully). -/
theorem c1_corrected (c : ClientOracle) (pre post : List QueuedRequest)
    (ek : QueuedRequest)
    (hN : (((pre ++ ek :: post).map fun e => e.id)).Nodup)
    (hpre : ∀ e ∈ pre, breaks c e = false)
    (hek : breaks c ek = true) :
    FlushQ c (fun _ => true) (.good (pre ++ ek :: post))
      = .ok (succCount c pre, ek :: post) := by
  obtain ⟨m, hd, hm⟩ := (breaks_iff c ek).mp hek
  have hP : (pre ++ ek :: post).Pairwise (fun a b => a.id ≠ b.id) :=
    (nodup_ids_iff _).mp hN
  unfold FlushQ
  simp only [loadQ]
  have hne : (pre ++ ek :: post).isEmpty = false := by
    cases pre <;> simp [List.isEmpty]
  rw [hne]
  simp only [Bool.false_eq_true, if_false]
  have hmaster := flushLoop_drain c (fun _ => true) pre [] (ek :: post) 0
    hpre (by simpa using hP)
  simp only [List.nil_append] at hmaster
  rw [hmaster, keptOf_eq_nil _ _ (fun e _ => rfl), List.nil_append,
    flushLoop_break c _ ek m post _ _ hd hm, Nat.zero_add]

/-- C1, witness for the amended theorem at the concrete scenario. -/
theorem c1_corrected_witness :
    FlushQ c1Client (fun _ => true) (.good ([c1EntryA] ++ c1EntryB :: []))
      = .ok (succCount c1Client [c1EntryA], c1EntryB :: []) :=
  c1_corrected c1Client [c1EntryA] [] c1EntryB (by decide) (by decide) (by decide)

/-- C2, counterexample.  The message `connection reset by peer`
contains the substring `connection` (even in lower case), so the
claim's criterion classifies it transient; but `IsNetworkError` — the
classifier `Flush` consults — matches `connection refused` only, so it
classifies the message non-transient and the flusher DROPS the entry
instead of stopping and keeping it. -/
theorem c2_counterexample :
    specNetworkClassifier "connection reset by peer" = true ∧
    isNetworkErr "connection reset by peer" = true ∧
    IsNetworkError "connection reset by peer" = false ∧
    FlushQ ⟨fun _ _ => some "connection reset by peer", fun _ => none⟩
        (fun _ => true) (.good [⟨"1", "POST", "/cards/c/claim", none, 1⟩])
      = .ok (0, []) := by
  refine ⟨by decide, by decide, by decide, by rfl⟩

/-- C2, amended.  The classifier the flusher consults
(`IsNetworkError`) is case-sensitive and uses the keyword
`connection refused`; it accepts only a subset of the spec's
case-insensitive criterion (which the commands-layer `isNetworkErr`
implements verbatim): e.g. `TIMEOUT` is not classified transient.
`validation failed: missing field` is non-network under both.  The
flusher keeps the queue exactly when `IsNetworkError` accepts the
failure message, and drops the entry otherwise. -/
theorem c2_corrected :
    (∀ msg, IsNetworkError msg = true → specNetworkClassifier msg = true) ∧
    (∀ msg, isNetworkErr msg = specNetworkClassifier msg) ∧
    IsNetworkError "TIMEOUT" = false ∧
    specNetworkClassifier "TIMEOUT" = true ∧
    IsNetworkError "validation failed: missing field" = false ∧
    specNetworkClassifier "validation failed: missing field" = false ∧
    (∀ msg, FlushQ ⟨fun _ _ => some msg, fun _ => none⟩ (fun _ => true)
        (.good [⟨"1", "POST", "/cards/c/claim", none, 1⟩])
      = .ok (0, if IsNetworkError msg
          then [⟨"1", "POST", "/cards/c/claim", none, 1⟩] else [])) := by
  refine ⟨IsNetworkError_imp_spec, fun msg => rfl, by decide, by decide,
    by decide, by decide, ?_⟩
  intro msg
  by_cases hn : IsNetworkError msg = true
  · simp [FlushQ, loadQ, flushLoop, dispatchE, hn]
  · rw [Bool.not_eq_true] at hn
    simp [FlushQ, loadQ, flushLoop, dispatchE, tryRemove, hn]

/-- C2, witness for the amended theorem: a message `IsNetworkError`
accepts is accepted by the spec's criterion too. -/
theorem c2_corrected_witness :
    specNetworkClassifier "network error: dial tcp" = true :=
  c2_corrected.1 "network error: dial tcp" (by decide)

/-- C4, counterexample.  Two `Add` calls that observe the same
`UnixNano` clock reading (rapid succession on a coarse-tick clock)
produce entries in FIFO order but with IDENTICAL identifiers, because
the identifier is just the decimal rendering of the reading. -/
theorem c4_counterexample :
    listQ (addAll [⟨5, "POST", "/a", none⟩, ⟨5, "GET", "/b", none⟩] .missing)
      = .ok [⟨"5", "POST", "/a", none, 5⟩, ⟨"5", "GET", "/b", none, 5⟩] ∧
    ¬ ((([⟨"5", "POST", "/a", none, 5⟩, ⟨"5", "GET", "/b", none, 5⟩] :
        List QueuedRequest).map fun e => e.id)).Nodup := by
  refine ⟨by rfl, by decide⟩

/-- C4, amended.  For every sequence of `Add` calls starting from a
fresh queue, `List` returns the entries in exactly the order added
(FIFO, unconditionally); the generated identifiers are pairwise
distinct PROVIDED the nanosecond clock readings observed by the `Add`
calls are pairwise distinct. -/
theorem c4_corrected (cs : List AddCall) :
    listQ (addAll cs .missing) = .ok (cs.map mkCall) ∧
    ((cs.map fun a => a.now).Nodup →
      (((cs.map mkCall).map fun e => e.id)).Nodup) := by
  refine ⟨listQ_addAll cs, fun h => ?_⟩
  have hmaps : ((cs.map mkCall).map fun e => e.id)
      = (cs.map fun a => a.now).map intDecRepr := by
    simp only [List.map_map]
    rfl
  rw [hmaps]
  exact List.Nodup.map intDecRepr_injective h

/-- C4, witness for the amended theorem: two adds at distinct clock
readings give distinct identifiers. -/
theorem c4_corrected_witness :
    ((([⟨1, "POST", "/a", none⟩, ⟨2, "GET", "/b", none⟩] :
      List AddCall).map mkCall).map fun e => e.id).Nodup :=
  (c4_corrected [⟨1, "POST", "/a", none⟩, ⟨2, "GET", "/b", none⟩]).2 (by decide)

/-- C5, counterexample.  `TokenStore.Clear` is `os.Remove`, which
FAILS when the credential file does not exist: clearing from the
absent state returns a filesystem error instead of succeeding. -/
theorem c5_counterexample :
    clearT TokenFile.missing
      = .error "remove tokens.json: no such file or directory" := rfl

/-- C5, amended.  `clear()` succeeds from every prior state EXCEPT the
absent one, where `os.Remove` surfaces the not-exist error; in every
case (error included) a `load()` after the `clear()` attempt returns
absent. -/
theorem c5_corrected (f : TokenFile) :
    loadT (afterClearT f) = none ∧
    (f ≠ TokenFile.missing → clearT f = .ok .missing) := by
  cases f with
  | missing => exact ⟨rfl, fun h => absurd rfl h⟩
  | unreadable => exact ⟨rfl, fun _ => rfl⟩
  | stored j => exact ⟨rfl, fun _ => rfl⟩

/-- C5, witness for the amended theorem at a stored credential file. -/
theorem c5_corrected_witness :
    loadT (afterClearT (TokenFile.stored Json.null)) = none ∧
    clearT (TokenFile.stored Json.null) = .ok .missing :=
  ⟨(c5_corrected (TokenFile.stored Json.null)).1,
   (c5_corrected (TokenFile.stored Json.null)).2
     (fun h => TokenFile.noConfusion h)⟩

/-- C6 (confirmed).  `save(C)` followed by `load()` yields `C`: every
field of the credential round-trips through the marshalled file,
whatever was on disk before. -/
theorem c6_confirmed (t : TokenData) (f : TokenFile) :
    loadT (saveT t f) = some t := rfl

/-- C8, counterexample.  An `Add` on a present-but-corrupt queue file
SUCCEEDS instead of failing: `Queue.Add` swallows the load error,
rebuilds from an empty list, and persists a queue holding only the new
entry — the previously queued entries are silently discarded. -/
theorem c8_counterexample :
    addQ 7 "POST" "/x" none QueueFile.corrupt
      = .ok (.good [mkQueuedRequest 7 "POST" "/x" none]) := rfl

/-- C8, amended.  `Queue.load` treats a missing file as an empty queue
and propagates other read errors, so `List` and `Remove` fail on a
corrupt file; but `Add` replaces a failed load by an empty list and
proceeds, so it succeeds on a corrupt file with a single-entry queue —
discarding whatever the corrupt file held. -/
theorem c8_corrected :
    loadQ QueueFile.missing = .ok [] ∧
    listQ QueueFile.corrupt = .error "unexpected end of JSON input" ∧
    (∀ i, removeQ i QueueFile.corrupt
      = .error "unexpected end of JSON input") ∧
    (∀ now m p b, addQ now m p b QueueFile.corrupt
      = .ok (.good [mkQueuedRequest now m p b])) :=
  ⟨rfl, rfl, fun _ => rfl, fun _ _ _ _ => rfl⟩

/-- A flat token-service response body carrying the credential's
fields at top level. -/
def c3FlatBody : Json :=
  Json.obj [("workspace_token", .str "tok"), ("token_type", .str "bearer"),
    ("expires_at", .num 99), ("workspace_id", .str "w1"),
    ("agent_id", .str "a1")]

/-- C3 (code bug).  The flat shape DOES deserialize as a
`TokenResponse` carrying the server's fields, but the wrapped-shape
unmarshal attempted first succeeds vacuously on any JSON object
(unknown keys are ignored, a missing `data` key leaves the zero
value), so the flat fallback is unreachable and the transport returns
a zero-valued credential — its token empty — instead of the fields the
server sent.  Only the wrapped shape round-trips. -/
theorem c3_code_bug :
    decodeTokenResponse c3FlatBody = .ok ⟨"tok", "bearer", 99, "w1", "a1"⟩ ∧
    decodeWrapper c3FlatBody = .ok zeroTokenResponse ∧
    parseTokenBody c3FlatBody = .ok zeroTokenResponse ∧
    zeroTokenResponse ≠ ⟨"tok", "bearer", 99, "w1", "a1"⟩ ∧
    parseTokenBody (Json.obj [("data", c3FlatBody)])
      = .ok ⟨"tok", "bearer", 99, "w1", "a1"⟩ :=
  ⟨rfl, rfl, rfl, by decide, rfl⟩

/-- C7 (confirmed).  A processed entry whose replay fails with a
non-network classification is removed from the queue for good — no
entry with its identifier remains in the final file state, hence in
any subsequent `List()` — and the flusher continues with the remaining
entries instead of stopping. -/
theorem c7_confirmed (c : ClientOracle) (pre post : List QueuedRequest)
    (e0 : QueuedRequest) (m : String)
    (hN : (((pre ++ e0 :: post).map fun e => e.id)).Nodup)
    (hpre : ∀ e ∈ pre, breaks c e = false)
    (hd : dispatchE c e0 = some (some m))
    (hm : IsNetworkError m = false) :
    FlushQ c (fun _ => true) (.good (pre ++ e0 :: post))
      = .ok (flushLoop c (fun _ => true) post post (succCount c pre)) ∧
    (∀ x ∈ (flushLoop c (fun _ => true) post post (succCount c pre)).2,
      x.id ≠ e0.id) := by
  have hP : (pre ++ e0 :: post).Pairwise (fun a b => a.id ≠ b.id) :=
    (nodup_ids_iff _).mp hN
  have hPc : (e0 :: post).Pairwise (fun a b => a.id ≠ b.id) :=
    List.Pairwise.sublist (List.sublist_append_right pre (e0 :: post)) hP
  have he0post : ∀ b ∈ post, e0.id ≠ b.id := (List.pairwise_cons.mp hPc).1
  constructor
  · unfold FlushQ
    simp only [loadQ]
    have hne : (pre ++ e0 :: post).isEmpty = false := by
      cases pre <;> simp [List.isEmpty]
    rw [hne]
    simp only [Bool.false_eq_true, if_false]
    have hmaster := flushLoop_drain c (fun _ => true) pre [] (e0 :: post) 0
      hpre (by simpa using hP)
    simp only [List.nil_append] at hmaster
    rw [hmaster, keptOf_eq_nil _ _ (fun e _ => rfl), List.nil_append,
      Nat.zero_add]
    simp only [flushLoop, hd, hm, Bool.false_eq_true, if_false]
    have hrem : tryRemove (fun _ => true) e0.id (e0 :: post) = post := by
      unfold tryRemove
      rw [if_pos rfl]
      have hfm := filter_middle [] post e0 (by simpa using hPc)
      simpa using hfm
    rw [hrem]
  · intro x hx hxe
    have hxpost : x ∈ post :=
      (flushLoop_state_sublist c (fun _ => true) post post
        (succCount c pre)).subset hx
    exact (he0post x hxpost) hxe.symm

/-- Replay oracle of the C7 scenario: every POST is rejected with a
404 application error. -/
def c7Client : ClientOracle where
  post := fun _ _ => some "API error 404: card not found"
  get := fun _ => none

/-- The single queued entry of the C7 scenario. -/
def c7Entry : QueuedRequest := ⟨"201", "POST", "/cards/x/done", none, 201⟩

/-- C7, witness at a one-entry queue rejected with a 404. -/
theorem c7_confirmed_witness :
    FlushQ c7Client (fun _ => true) (.good ([] ++ c7Entry :: []))
      = .ok (flushLoop c7Client (fun _ => true) [] []
          (succCount c7Client [])) ∧
    (∀ x ∈ (flushLoop c7Client (fun _ => true) [] []
        (succCount c7Client [])).2, x.id ≠ c7Entry.id) :=
  c7_confirmed c7Client [] [] c7Entry "API error 404: card not found"
    (by decide) (by decide) (by decide) (by decide)

/-- C9 (confirmed).  One iteration of the auto-refresh loop that finds
a credential always invokes the refresh function on its raw token, and
only at an instant `now + slept ≥ expiry - 4h`; when evaluated at
`now ≥ expiry - 4h` it does not sleep at all.  Without a credential it
only polls. -/
theorem c9_confirmed (t : TokenData) (now : Int) :
    (autoRefreshStep (some t) now).action
        = RefreshAction.invoked t.workspaceToken ∧
    t.expiresAt - fourHoursNs ≤ now + (autoRefreshStep (some t) now).slept ∧
    (t.expiresAt - fourHoursNs ≤ now →
      (autoRefreshStep (some t) now).slept = 0) ∧
    (autoRefreshStep none now).action = RefreshAction.polled := by
  by_cases h : now < t.expiresAt - fourHoursNs
  · have hstep : autoRefreshStep (some t) now
        = ⟨t.expiresAt - fourHoursNs - now,
           RefreshAction.invoked t.workspaceToken⟩ := by
      simp [autoRefreshStep, h]
    rw [hstep]
    exact ⟨rfl, by show t.expiresAt - fourHoursNs
        ≤ now + (t.expiresAt - fourHoursNs - now); omega,
      fun hge => absurd hge (by omega), rfl⟩
  · have hstep : autoRefreshStep (some t) now
        = ⟨0, RefreshAction.invoked t.workspaceToken⟩ := by
      simp [autoRefreshStep, h]
    rw [hstep]
    exact ⟨rfl, by show t.expiresAt - fourHoursNs ≤ now + 0; omega,
      fun _ => rfl, rfl⟩

/-- A credential whose expiry is exactly four hours after the epoch,
so its refresh deadline is the instant 0. -/
def c9Token : TokenData :=
  ⟨"jwt-abc", "bearer", fourHoursNs, "w1", "a1", "https://api.example"⟩

/-- C9, witness: evaluated at its refresh deadline, the scheduler
refreshes without sleeping. -/
theorem c9_confirmed_witness : (autoRefreshStep (some c9Token) 0).slept = 0 :=
  (c9_confirmed c9Token 0).2.2.1 (by decide)

/-- C10 (confirmed).  When an entry replays successfully but its
removal from the queue fails, `Flush` still counts it and continues;
the entry stays in the final queue, and a later flush (with removals
healthy again) delivers it a second time — at-least-once delivery,
with the reported count exceeding the entries actually pruned. -/
theorem c10_confirmed (c : ClientOracle) (rok : String → Bool)
    (pre post : List QueuedRequest) (e0 : QueuedRequest)
    (hN : (((pre ++ e0 :: post).map fun e => e.id)).Nodup)
    (hnb : ∀ e ∈ pre ++ post, breaks c e = false)
    (hd : dispatchE c e0 = some none)
    (hrf : rok e0.id = false)
    (hro : ∀ e ∈ pre ++ post, rok e.id = true) :
    FlushQ c rok (.good (pre ++ e0 :: post))
      = .ok (succCount c pre + 1 + succCount c post, [e0]) ∧
    FlushQ c (fun _ => true) (.good [e0]) = .ok (1, []) := by
  have hP : (pre ++ e0 :: post).Pairwise (fun a b => a.id ≠ b.id) :=
    (nodup_ids_iff _).mp hN
  constructor
  · unfold FlushQ
    simp only [loadQ]
    have hne : (pre ++ e0 :: post).isEmpty = false := by
      cases pre <;> simp [List.isEmpty]
    rw [hne]
    simp only [Bool.false_eq_true, if_false]
    have hpre' : ∀ e ∈ pre, breaks c e = false :=
      fun e he => hnb e (List.mem_append.mpr (Or.inl he))
    have hmaster := flushLoop_drain c rok pre [] (e0 :: post) 0 hpre'
      (by simpa using hP)
    simp only [List.nil_append] at hmaster
    rw [hmaster,
      keptOf_eq_nil rok pre
        (fun e he => hro e (List.mem_append.mpr (Or.inl he))),
      List.nil_append, Nat.zero_add]
    simp only [flushLoop, hd]
    have hrm : tryRemove rok e0.id (e0 :: post) = e0 :: post := by
      simp [tryRemove, hrf]
    rw [hrm]
    have hPc : (e0 :: post).Pairwise (fun a b => a.id ≠ b.id) :=
      List.Pairwise.sublist (List.sublist_append_right pre (e0 :: post)) hP
    have hP2 : ([e0] ++ post ++ []).Pairwise
        (fun a b : QueuedRequest => a.id ≠ b.id) := by
      simpa using hPc
    have hpost' : ∀ e ∈ post, breaks c e = false :=
      fun e he => hnb e (List.mem_append.mpr (Or.inr he))
    have hmaster2 := flushLoop_drain c rok post [e0] []
      (succCount c pre + 1) hpost' hP2
    simp only [List.append_nil, List.singleton_append] at hmaster2
    rw [hmaster2,
      keptOf_eq_nil rok post
        (fun e he => hro e (List.mem_append.mpr (Or.inr he)))]
    simp [flushLoop]
  · simp [FlushQ, loadQ, flushLoop, hd, tryRemove]

/-- Replay oracle of the C10 scenario: every replay succeeds. -/
def c10Client : ClientOracle := ⟨fun _ _ => none, fun _ => none⟩

/-- The single queued entry of the C10 scenario. -/
def c10Entry : QueuedRequest := ⟨"301", "POST", "/signals", some "null", 301⟩

/-- C10, witness: a one-entry queue whose removal fails is counted as
flushed, stays queued, and is delivered again by the next flush. -/
theorem c10_confirmed_witness :
    FlushQ c10Client (fun _ => false) (.good ([] ++ c10Entry :: []))
      = .ok (succCount c10Client [] + 1 + succCount c10Client [],
          [c10Entry]) ∧
    FlushQ c10Client (fun _ => true) (.good [c10Entry]) = .ok (1, []) :=
  c10_confirmed c10Client (fun _ => false) [] [] c10Entry (by decide)
    (by decide) (by decide) (by rfl) (by decide)

end DeaCli
